import Mathlib

/-!
# Verification of squashfs-tools-ng core claims

Shallow embedding of the gensquashfs pseudo-file parser
(`src/bin/gensquashfs/src/fstree_from_file.c`), the input stream reader
(`src/lib/io/src/istream.c`) including the block-signature macros of its
internal header, and the owner-override pass of `mkfs.c`.

C strings are modelled as `List Char` holding the characters before the
NUL terminator; reaching `[]` corresponds to reading `'\0'`.  Machine
integers are modelled as `Nat` with explicit `% 2^w` where overflow can
occur in the source.
-/

set_option maxHeartbeats 1000000

namespace SquashFs

/-! ## C character classification (C locale, ASCII) -/

/-- C `isspace` in the C locale. -/
def c_isspace (c : Char) : Bool :=
  c == ' ' || c == '\t' || c == '\n' || c == '\x0b' || c == '\x0c' || c == '\r'

/-- C `isdigit`. -/
def c_isdigit (c : Char) : Bool :=
  48 ≤ c.toNat && c.toNat ≤ 57

/-- Numeric value of an ASCII digit, the C expression `c - '0'`. -/
def digitVal (c : Char) : Nat := c.toNat - 48

/-- The ASCII single-quote character (codepoint 39). -/
def squote : Char := Char.ofNat 39

/-! ## Block signatures (`lib/sqfs/src/block_processor/internal.h`,
embedded from the copy in `src/lib/io/src/istream.c`)

`MK_BLK_SIG(chksum, size)` is `((uint64_t)(size) << 32) | (uint64_t)(chksum)`
and `BLK_SIZE(sig)` is `(sig) >> 32`; the arithmetic is 64-bit. -/

def MK_BLK_SIG (chksum size : Nat) : Nat :=
  ((size <<< 32) ||| chksum) % 2 ^ 64

def BLK_SIZE (sig : Nat) : Nat := sig >>> 32

/-- `a <<< 32 ||| b` with a 32-bit `b` is ordinary positional composition. -/
theorem shiftLeft32_or_eq_add (a b : Nat) (hb : b < 2 ^ 32) :
    (a <<< 32) ||| b = a * 2 ^ 32 + b := by
  apply Nat.eq_of_testBit_eq
  intro j
  have hrhs : Nat.testBit (a * 2 ^ 32 + b) j
      = if j < 32 then Nat.testBit b j else Nat.testBit a (j - 32) := by
    rw [Nat.mul_comm]
    exact Nat.testBit_mul_pow_two_add a hb j
  rw [Nat.testBit_or, Nat.testBit_shiftLeft, hrhs]
  by_cases hj : j < 32
  · simp [hj, Nat.not_le.mpr hj]
  · have hbj : Nat.testBit b j = false := by
      apply Nat.testBit_lt_two_pow
      exact lt_of_lt_of_le hb (Nat.pow_le_pow_right (by norm_num) (Nat.not_lt.mp hj))
    simp [hj, Nat.not_lt.mp hj, hbj]

/-- **C2.** For every 32-bit checksum and block size below `2^32`, the block
signature places the size in the upper 32 bits and the checksum in the lower
32 bits: `BLK_SIZE (MK_BLK_SIG c s) = s`, and two `(checksum, size)` pairs
produce the same signature only if both components agree. -/
theorem blk_sig_size_and_injective (c₁ s₁ c₂ s₂ : Nat)
    (hc₁ : c₁ < 2 ^ 32) (hs₁ : s₁ < 2 ^ 32)
    (hc₂ : c₂ < 2 ^ 32) (hs₂ : s₂ < 2 ^ 32) :
    BLK_SIZE (MK_BLK_SIG c₁ s₁) = s₁ ∧
    (MK_BLK_SIG c₁ s₁ = MK_BLK_SIG c₂ s₂ → c₁ = c₂ ∧ s₁ = s₂) := by
  have hval : ∀ c s : Nat, c < 2 ^ 32 → s < 2 ^ 32 →
      MK_BLK_SIG c s = s * 2 ^ 32 + c := by
    intro c s hc hs
    unfold MK_BLK_SIG
    rw [shiftLeft32_or_eq_add s c hc]
    apply Nat.mod_eq_of_lt
    have : s * 2 ^ 32 + c < (s + 1) * 2 ^ 32 := by
      rw [Nat.succ_mul]; omega
    have hle : (s + 1) * 2 ^ 32 ≤ 2 ^ 32 * 2 ^ 32 := by
      apply Nat.mul_le_mul_right
      omega
    calc s * 2 ^ 32 + c < (s + 1) * 2 ^ 32 := this
      _ ≤ 2 ^ 32 * 2 ^ 32 := hle
      _ = 2 ^ 64 := by norm_num
  constructor
  · rw [hval c₁ s₁ hc₁ hs₁]
    unfold BLK_SIZE
    rw [Nat.shiftRight_eq_div_pow]
    omega
  · intro h
    rw [hval c₁ s₁ hc₁ hs₁, hval c₂ s₂ hc₂ hs₂] at h
    constructor <;> omega

/-- Concrete instantiation of `blk_sig_size_and_injective`. -/
theorem blk_sig_size_and_injective_witness :
    BLK_SIZE (MK_BLK_SIG 0xDEADBEEF 4096) = 4096 ∧
    (MK_BLK_SIG 0xDEADBEEF 4096 = MK_BLK_SIG 0xDEADBEEF 4096 →
      (0xDEADBEEF : Nat) = 0xDEADBEEF ∧ (4096 : Nat) = 4096) :=
  blk_sig_size_and_injective 0xDEADBEEF 4096 0xDEADBEEF 4096
    (by norm_num) (by norm_num) (by norm_num) (by norm_num)

/-! ## `read_u32` (`fstree_from_file.c` lines 352-369)

The accumulating loop of `read_u32`.  The C version walks the string and
bails out with NULL when a digit is `>= base` or when
`*out > (0xFFFFFFFF - x) / base`, i.e. when `*out * base + x` would exceed
`2^32 - 1`. -/

def read_u32_loop (base : Nat) (acc : Nat) : List Char → Option (Nat × List Char)
  | [] => some (acc, [])
  | c :: cs =>
    if c_isdigit c then
      let x := digitVal c
      if base ≤ x ∨ (0xFFFFFFFF - x) / base < acc then none
      else read_u32_loop base (acc * base + x) cs
    else some (acc, c :: cs)

def read_u32 (s : List Char) (base : Nat) : Option (Nat × List Char) :=
  match s with
  | [] => none
  | c :: _ => if c_isdigit c then read_u32_loop base 0 s else none

/-- Value of a digit string in base `base`, starting from accumulator `acc`. -/
def u32AccVal (base acc : Nat) (ds : List Char) : Nat :=
  ds.foldl (fun a c => a * base + digitVal c) acc

/-- Value of a digit string in base `base`. -/
def digitsVal (base : Nat) (ds : List Char) : Nat := u32AccVal base 0 ds

theorem u32AccVal_nil (base acc : Nat) : u32AccVal base acc [] = acc := rfl

/-- An ASCII digit has value at most 9. -/
theorem digitVal_le_nine {c : Char} (h : c_isdigit c = true) : digitVal c ≤ 9 := by
  unfold c_isdigit at h
  rw [Bool.and_eq_true, decide_eq_true_eq, decide_eq_true_eq] at h
  unfold digitVal
  omega

theorem u32AccVal_cons (base acc : Nat) (c : Char) (cs : List Char) :
    u32AccVal base acc (c :: cs) = u32AccVal base (acc * base + digitVal c) cs := rfl

/-- The accumulated value never decreases along the digit string. -/
theorem le_u32AccVal (base acc : Nat) (hb : 1 ≤ base) (ds : List Char) :
    acc ≤ u32AccVal base acc ds := by
  induction ds generalizing acc with
  | nil => exact Nat.le_refl acc
  | cons c cs ih =>
    rw [u32AccVal_cons]
    have h1 : acc ≤ acc * base + digitVal c := by
      have := Nat.le_mul_of_pos_right acc hb
      omega
    exact le_trans h1 (ih _)

/-- Success case of the loop: when every digit of the leading digit run is
below the base and the run's value (from the current accumulator) fits in
32 bits, the loop returns that value and the rest of the string. -/
theorem read_u32_loop_success (base : Nat) (hb : 2 ≤ base) (s : List Char)
    (acc : Nat)
    (hd : ∀ c ∈ s.takeWhile c_isdigit, digitVal c < base)
    (hv : u32AccVal base acc (s.takeWhile c_isdigit) ≤ 0xFFFFFFFF) :
    read_u32_loop base acc s
      = some (u32AccVal base acc (s.takeWhile c_isdigit),
              s.dropWhile c_isdigit) := by
  induction s generalizing acc with
  | nil => simp [read_u32_loop, u32AccVal]
  | cons c cs ih =>
    by_cases hc : c_isdigit c
    · rw [List.takeWhile_cons_of_pos hc] at hd hv ⊢
      rw [List.dropWhile_cons_of_pos hc, u32AccVal_cons]
      rw [read_u32_loop, if_pos hc]
      have hx : digitVal c < base := hd c (List.mem_cons_self _ _)
      rw [u32AccVal_cons] at hv
      have hacc : acc * base + digitVal c ≤ 0xFFFFFFFF :=
        le_trans (le_u32AccVal base _ (by omega) _) hv
      have hno : ¬(base ≤ digitVal c ∨ (0xFFFFFFFF - digitVal c) / base < acc) := by
        push_neg
        refine ⟨hx, ?_⟩
        rw [Nat.le_div_iff_mul_le (by omega)]
        omega
      rw [if_neg hno]
      exact ih _ (fun d hdm => hd d (List.mem_cons_of_mem _ hdm)) hv
    · rw [List.takeWhile_cons_of_neg hc] at hd hv ⊢
      rw [List.dropWhile_cons_of_neg hc]
      rw [read_u32_loop, if_neg hc]
      simp [u32AccVal]

/-- Failure case of the loop: if some digit of the leading run is `≥ base`
or the run's value does not fit in 32 bits, the loop returns NULL. -/
theorem read_u32_loop_failure (base : Nat) (hb : 2 ≤ base) (s : List Char)
    (acc : Nat) (hacc : acc ≤ 0xFFFFFFFF)
    (hbad : (∃ c ∈ s.takeWhile c_isdigit, base ≤ digitVal c) ∨
            0xFFFFFFFF < u32AccVal base acc (s.takeWhile c_isdigit)) :
    read_u32_loop base acc s = none := by
  induction s generalizing acc with
  | nil =>
    rcases hbad with ⟨c, hc, _⟩ | hv
    · simp at hc
    · rw [List.takeWhile_nil, u32AccVal_nil] at hv
      omega
  | cons c cs ih =>
    by_cases hc : c_isdigit c
    · rw [List.takeWhile_cons_of_pos hc] at hbad
      rw [read_u32_loop, if_pos hc]
      by_cases hstop : base ≤ digitVal c ∨ (0xFFFFFFFF - digitVal c) / base < acc
      · rw [if_pos hstop]
      · rw [if_neg hstop]
        push_neg at hstop
        obtain ⟨hx, hdiv⟩ := hstop
        rw [Nat.le_div_iff_mul_le (by omega)] at hdiv
        have hd9 : digitVal c ≤ 9 := digitVal_le_nine hc
        have hacc' : acc * base + digitVal c ≤ 0xFFFFFFFF := by omega
        apply ih _ hacc'
        rcases hbad with ⟨d, hd, hbase⟩ | hv
        · rcases List.mem_cons.mp hd with hdc | hdm
          · exact absurd hbase (by rw [hdc]; omega)
          · exact Or.inl ⟨d, hdm, hbase⟩
        · rw [u32AccVal_cons] at hv
          exact Or.inr hv
    · rw [List.takeWhile_cons_of_neg hc] at hbad
      rcases hbad with ⟨d, hd, _⟩ | hv
      · simp at hd
      · rw [u32AccVal_nil] at hv
        omega

/-- **C5.** `read_u32` returns exactly the value of the leading digit run in
base `b` when the string starts with a digit, every digit of the run is below
`b`, and the value fits in 32 bits; it returns NULL exactly when the string
does not start with a digit, some digit of the run is `≥ b`, or the run's
value exceeds `2^32 - 1` (in particular every numeral denoting a value
`≥ 2^32` is rejected). -/
theorem read_u32_spec (s : List Char) (base : Nat) (hb : 2 ≤ base) :
    (read_u32 s base = none ↔
      s.takeWhile c_isdigit = [] ∨
      (∃ c ∈ s.takeWhile c_isdigit, base ≤ digitVal c) ∨
      0xFFFFFFFF < digitsVal base (s.takeWhile c_isdigit)) ∧
    (s.takeWhile c_isdigit ≠ [] →
     (∀ c ∈ s.takeWhile c_isdigit, digitVal c < base) →
     digitsVal base (s.takeWhile c_isdigit) ≤ 0xFFFFFFFF →
     read_u32 s base
       = some (digitsVal base (s.takeWhile c_isdigit), s.dropWhile c_isdigit)) := by
  constructor
  · constructor
    · intro hnone
      by_contra hgood
      push_neg at hgood
      obtain ⟨hne, hlt, hfit⟩ := hgood
      have hlt' : ∀ c ∈ s.takeWhile c_isdigit, digitVal c < base := by
        intro c hcmem
        have := hlt c hcmem
        omega
      cases s with
      | nil => simp at hne
      | cons c cs =>
        have hc : c_isdigit c = true := by
          by_contra hcn
          rw [List.takeWhile_cons_of_neg (by simpa using hcn)] at hne
          exact hne rfl
        rw [read_u32, if_pos hc,
          read_u32_loop_success base hb _ 0 hlt' (by exact hfit)] at hnone
        exact Option.noConfusion hnone
    · intro hbad
      cases s with
      | nil => rfl
      | cons c cs =>
        by_cases hc : c_isdigit c
        · rw [read_u32, if_pos hc]
          apply read_u32_loop_failure base hb _ 0 (by norm_num)
          rcases hbad with hne | hrest
          · rw [List.takeWhile_cons_of_pos hc] at hne
            exact List.noConfusion hne
          · exact hrest
        · rw [read_u32, if_neg hc]
  · intro hne hlt hfit
    cases s with
    | nil => simp at hne
    | cons c cs =>
      have hc : c_isdigit c = true := by
        by_contra hcn
        rw [List.takeWhile_cons_of_neg (by simpa using hcn)] at hne
        exact hne rfl
      rw [read_u32, if_pos hc]
      exact read_u32_loop_success base hb _ 0 hlt hfit

/-- Concrete instantiation of `read_u32_spec` at `"123x"` in base 10. -/
theorem read_u32_spec_witness :
    2 ≤ 10 ∧
    ((read_u32 ['1', '2', '3', 'x'] 10 = none ↔
      ['1', '2', '3', 'x'].takeWhile c_isdigit = [] ∨
      (∃ c ∈ ['1', '2', '3', 'x'].takeWhile c_isdigit, 10 ≤ digitVal c) ∨
      0xFFFFFFFF < digitsVal 10 (['1', '2', '3', 'x'].takeWhile c_isdigit)) ∧
    (['1', '2', '3', 'x'].takeWhile c_isdigit ≠ [] →
     (∀ c ∈ ['1', '2', '3', 'x'].takeWhile c_isdigit, digitVal c < 10) →
     digitsVal 10 (['1', '2', '3', 'x'].takeWhile c_isdigit) ≤ 0xFFFFFFFF →
     read_u32 ['1', '2', '3', 'x'] 10
       = some (digitsVal 10 (['1', '2', '3', 'x'].takeWhile c_isdigit),
               ['1', '2', '3', 'x'].dropWhile c_isdigit))) :=
  ⟨by norm_num, read_u32_spec ['1', '2', '3', 'x'] 10 (by norm_num)⟩

/-! ## `skip_space` (`fstree_from_file.c` lines 343-350) -/

/-- NULL unless the string starts with whitespace, else the position after
the whitespace run. -/
def skip_space (s : List Char) : Option (List Char) :=
  match s with
  | [] => none
  | c :: cs => if c_isspace c then some ((c :: cs).dropWhile c_isspace) else none

/-! ## `read_str` (`fstree_from_file.c` lines 371-407) -/

/-- Body of the double-quoted branch of `read_str`, starting just after the
opening `"`.  `\"` and `\\` are unescaped; the closing quote must be
followed by whitespace, which is then skipped. -/
def read_str_quoted : List Char → Option (List Char × List Char)
  | [] => none
  | c :: cs =>
    if c = '"' then
      match cs with
      | [] => none
      | d :: ds => if c_isspace d then some ([], (d :: ds).dropWhile c_isspace) else none
    else if c = '\\' then
      match cs with
      | d :: ds =>
        if d = '"' || d = '\\' then
          (read_str_quoted ds).map (fun p => (d :: p.1, p.2))
        else
          (read_str_quoted (d :: ds)).map (fun p => (c :: p.1, p.2))
      | [] => none
    else (read_str_quoted cs).map (fun p => (c :: p.1, p.2))

/-- `read_str`: a double-quoted string is unescaped up to the closing quote;
otherwise the token runs to the next whitespace.  In both cases the token
must be followed by whitespace (NULL at end of line), which is skipped. -/
def read_str (s : List Char) : Option (List Char × List Char) :=
  match s with
  | '"' :: rest => read_str_quoted rest
  | _ =>
    let tok := s.takeWhile (fun c => !c_isspace c)
    let rest := s.dropWhile (fun c => !c_isspace c)
    match rest with
    | [] => none
    | _ :: _ => some (tok, rest.dropWhile c_isspace)

/-! ## `name_string_length` and `quote_remove`
(`fstree_from_file.c` lines 112-146) -/

/-- Length of a `-name`/`-path` pattern token: a quoted token runs to the
matching quote (included when present), an unquoted one to the next
whitespace.  No escape sequences are recognized. -/
def name_string_length (s : List Char) : Nat :=
  match s with
  | [] => 0
  | c :: cs =>
    if c = '"' || c = squote then
      let inner := cs.takeWhile (fun d => d != c)
      if inner.length < cs.length then inner.length + 2 else inner.length + 1
    else
      (s.takeWhile (fun d => !c_isspace d)).length

/-- Strip a surrounding pair of quotes in place: keep everything after the
opening quote up to the first repetition of it. -/
def quote_remove (s : List Char) : List Char :=
  match s with
  | [] => []
  | c :: cs =>
    if c = squote || c = '"' then cs.takeWhile (fun d => d != c) else s

/-! ## Keyword and option prefix matching

The C pattern `strncmp(str, kw, strlen(kw)) == 0 && isspace(str[len])`
followed by skipping the whitespace, shared by the keyword table of
`handle_line` and the option table of `glob_files`. -/

def matchOpt : List Char → List Char → Option (List Char)
  | [], s =>
    match s with
    | [] => none
    | c :: cs => if c_isspace c then some ((c :: cs).dropWhile c_isspace) else none
  | n :: nm, s =>
    match s with
    | [] => none
    | c :: cs => if c = n then matchOpt nm cs else none

/-! ## Scan-flag and mode-bit constants -/

/-- Modelled from the spec: the `DIR_SCAN_*` bit flags are declared in a
header that is not part of src/; they are distinct single-bit masks.  The
seven kind-exclusion flags are given bits 0-6 in the order of the
`glob_scan_flags` table. -/
def DIR_SCAN_NO_BLK : Nat := 1

/-- Modelled from the spec: see `DIR_SCAN_NO_BLK`. -/
def DIR_SCAN_NO_CHR : Nat := 2

/-- Modelled from the spec: see `DIR_SCAN_NO_BLK`. -/
def DIR_SCAN_NO_DIR : Nat := 4

/-- Modelled from the spec: see `DIR_SCAN_NO_BLK`. -/
def DIR_SCAN_NO_FIFO : Nat := 8

/-- Modelled from the spec: see `DIR_SCAN_NO_BLK`. -/
def DIR_SCAN_NO_FILE : Nat := 16

/-- Modelled from the spec: see `DIR_SCAN_NO_BLK`. -/
def DIR_SCAN_NO_SLINK : Nat := 32

/-- Modelled from the spec: see `DIR_SCAN_NO_BLK`. -/
def DIR_SCAN_NO_SOCK : Nat := 64

/-- Modelled from the spec: see `DIR_SCAN_NO_BLK`. -/
def DIR_SCAN_ONE_FILESYSTEM : Nat := 128

/-- Modelled from the spec: see `DIR_SCAN_NO_BLK`. -/
def DIR_SCAN_KEEP_TIME : Nat := 256

/-- Modelled from the spec: see `DIR_SCAN_NO_BLK`. -/
def DIR_SCAN_NO_RECURSION : Nat := 512

/-- Modelled from the spec: see `DIR_SCAN_NO_BLK`. -/
def DIR_SCAN_KEEP_UID : Nat := 1024

/-- Modelled from the spec: see `DIR_SCAN_NO_BLK`. -/
def DIR_SCAN_KEEP_GID : Nat := 2048

/-- Modelled from the spec: see `DIR_SCAN_NO_BLK`. -/
def DIR_SCAN_KEEP_MODE : Nat := 4096

/-- Modelled from the spec: see `DIR_SCAN_NO_BLK`. -/
def DIR_SCAN_MATCH_FULL_PATH : Nat := 8192

/-- Modelled from the spec: POSIX `S_IFDIR`, declared in system headers
outside src/. -/
def S_IFDIR : Nat := 0o040000

/-- Modelled from the spec: POSIX `S_IFLNK`. -/
def S_IFLNK : Nat := 0o120000

/-- Modelled from the spec: POSIX `S_IFIFO`. -/
def S_IFIFO : Nat := 0o010000

/-- Modelled from the spec: POSIX `S_IFSOCK`. -/
def S_IFSOCK : Nat := 0o140000

/-- Modelled from the spec: POSIX `S_IFREG`. -/
def S_IFREG : Nat := 0o100000

/-! ## The keyword table (`file_list_hooks`, lines 320-339) -/

structure Hook where
  keyword : List Char
  mode : Nat
  need_extra : Bool
  is_glob : Bool
  allow_root : Bool
  deriving DecidableEq, Repr

def file_list_hooks : List Hook :=
  [⟨['d', 'i', 'r'], S_IFDIR, false, false, true⟩,
   ⟨['s', 'l', 'i', 'n', 'k'], S_IFLNK, true, false, false⟩,
   ⟨['l', 'i', 'n', 'k'], 0, true, false, false⟩,
   ⟨['n', 'o', 'd'], 0, true, false, false⟩,
   ⟨['p', 'i', 'p', 'e'], S_IFIFO, false, false, false⟩,
   ⟨['s', 'o', 'c', 'k'], S_IFSOCK, false, false, false⟩,
   ⟨['f', 'i', 'l', 'e'], S_IFREG, false, false, false⟩,
   ⟨['g', 'l', 'o', 'b'], 0, false, true, true⟩]

/-- The keyword search loop at the top of `handle_line` (lines 420-430). -/
def find_hook (s : List Char) : List Hook → Option (Hook × List Char)
  | [] => none
  | h :: hs =>
    match matchOpt h.keyword s with
    | some rest => some (h, rest)
    | none => find_hook s hs

/-! ## `handle_line` (`fstree_from_file.c` lines 409-517)

The external collaborator `canonicalize_name` (libutil, not under src/) is a
parameter: `canon p = some p'` models in-place success with result `p'`,
`none` models failure.  The result records either the arguments handed to
the keyword callback or which error label the line died on. -/

inductive LineResult where
  | ok (hook : Hook) (path : List Char) (st_mode uid gid : Nat)
      (glob_flags : Nat) (extra : Option (List Char))
  | fail_kw
  | fail_ent
  | fail_root
  | fail_no_extra
  | fail_uid_gid
  | fail_mode
  deriving DecidableEq, Repr

/-- The mode field (lines 444-451): `*` on a glob line keeps the host value,
otherwise an octal `read_u32` capped at `07777`. -/
def parse_mode (cb : Hook) (s : List Char) : Option (Nat × Nat × List Char) :=
  if cb.is_glob ∧ s.head? = some '*' then some (0, DIR_SCAN_KEEP_MODE, s.tail)
  else
    match read_u32 s 8 with
    | none => none
    | some (m, r) => if 0o7777 < m then none else some (m, 0, r)

/-- A uid/gid field (lines 456-475): `*` on a glob line keeps the host
value, otherwise a decimal `read_u32`. -/
def parse_id (cb : Hook) (keep_flag : Nat) (s : List Char) :
    Option (Nat × Nat × List Char) :=
  if cb.is_glob ∧ s.head? = some '*' then some (0, keep_flag, s.tail)
  else
    match read_u32 s 10 with
    | none => none
    | some (v, r) => some (v, 0, r)

/-- The optional trailing extra argument (line 477-478): non-NULL when the
gid field is followed by whitespace and then a non-empty remainder. -/
def handle_line_extra (l7 : List Char) : Option (List Char) :=
  match skip_space l7 with
  | some l8 => if l8.isEmpty then none else some l8
  | none => none

/-- Tail of `handle_line` after the gid field: the optional extra argument
and the callback dispatch (lines 477-491). -/
def handle_line_post_gid (cb : Hook) (path : List Char) (mode uid gid gf : Nat)
    (l7 : List Char) : LineResult :=
  if cb.need_extra ∧ handle_line_extra l7 = none then .fail_no_extra
  else .ok cb path (mode ||| cb.mode) uid gid gf (handle_line_extra l7)

/-- Tail of `handle_line` after the uid field (lines 465-491). -/
def handle_line_post_uid (cb : Hook) (path : List Char) (mode uid gf : Nat)
    (l5 : List Char) : LineResult :=
  match skip_space l5 with
  | none => .fail_ent
  | some l6 =>
    match parse_id cb DIR_SCAN_KEEP_GID l6 with
    | none => .fail_uid_gid
    | some (gid, gf3, l7) => handle_line_post_gid cb path mode uid gid (gf ||| gf3) l7

/-- Tail of `handle_line` after the mode field (lines 453-491). -/
def handle_line_post_mode (cb : Hook) (path : List Char) (mode gf1 : Nat)
    (l3 : List Char) : LineResult :=
  match skip_space l3 with
  | none => .fail_ent
  | some l4 =>
    match parse_id cb DIR_SCAN_KEEP_UID l4 with
    | none => .fail_uid_gid
    | some (uid, gf2, l5) => handle_line_post_uid cb path mode uid (gf1 ||| gf2) l5

def handle_line (canon : List Char → Option (List Char)) (line : List Char) :
    LineResult :=
  match find_hook line file_list_hooks with
  | none => .fail_kw
  | some (cb, l1) =>
    match read_str l1 with
    | none => .fail_ent
    | some (path0, l2) =>
      match canon path0 with
      | none => .fail_ent
      | some path =>
        if path = [] ∧ cb.allow_root = false then .fail_root
        else
          match parse_mode cb l2 with
          | none => .fail_mode
          | some (mode, gf1, l3) => handle_line_post_mode cb path mode gf1 l3

/-! ## Stage lemmas for `handle_line` -/

/-- The tail after the gid field only produces `fail_no_extra` or `ok`. -/
theorem handle_line_post_gid_cases (cb : Hook) (path : List Char)
    (mode uid gid gf : Nat) (l7 : List Char) :
    handle_line_post_gid cb path mode uid gid gf l7 = .fail_no_extra ∨
    ∃ e, handle_line_post_gid cb path mode uid gid gf l7
        = .ok cb path (mode ||| cb.mode) uid gid gf e := by
  unfold handle_line_post_gid
  split
  · exact Or.inl rfl
  · exact Or.inr ⟨handle_line_extra l7, rfl⟩

/-- The tail after the uid field never produces the mode or root errors. -/
theorem handle_line_post_uid_ne (cb : Hook) (path : List Char)
    (mode uid gf : Nat) (l5 : List Char) :
    handle_line_post_uid cb path mode uid gf l5 ≠ .fail_mode ∧
    handle_line_post_uid cb path mode uid gf l5 ≠ .fail_root := by
  unfold handle_line_post_uid
  split
  · simp
  · split
    · simp
    · rcases handle_line_post_gid_cases cb path mode uid _ _ _ with h | ⟨e, h⟩ <;>
        rw [h] <;> simp

/-- The tail after the mode field never produces the mode or root errors. -/
theorem handle_line_post_mode_ne (cb : Hook) (path : List Char)
    (mode gf1 : Nat) (l3 : List Char) :
    handle_line_post_mode cb path mode gf1 l3 ≠ .fail_mode ∧
    handle_line_post_mode cb path mode gf1 l3 ≠ .fail_root := by
  unfold handle_line_post_mode
  split
  · simp
  · split
    · simp
    · exact handle_line_post_uid_ne cb path mode _ _ _

/-- When the leading stages of `handle_line` succeed, the result is decided
by the mode field and the rest of the pipeline. -/
theorem handle_line_eq_mode_stage (canon : List Char → Option (List Char))
    (line l1 path0 l2 path : List Char) (cb : Hook)
    (h1 : find_hook line file_list_hooks = some (cb, l1))
    (h2 : read_str l1 = some (path0, l2))
    (h3 : canon path0 = some path)
    (h4 : ¬(path = [] ∧ cb.allow_root = false)) :
    handle_line canon line =
      (match parse_mode cb l2 with
       | none => LineResult.fail_mode
       | some (mode, gf1, l3) => handle_line_post_mode cb path mode gf1 l3) := by
  simp only [handle_line, h1, h2, h3]
  rw [if_neg h4]

/-- Dispatch on the mode field: the mode-stage value is the mode error
exactly when `parse_mode` fails. -/
theorem mode_stage_eq_fail_mode_iff (cb : Hook) (path l2 : List Char) :
    (match parse_mode cb l2 with
     | none => LineResult.fail_mode
     | some (mode, gf1, l3) => handle_line_post_mode cb path mode gf1 l3)
      = LineResult.fail_mode
    ↔ parse_mode cb l2 = none := by
  cases hpm : parse_mode cb l2 with
  | none => simp
  | some p =>
    obtain ⟨mode, gf1, l3⟩ := p
    simp only [Option.some.injEq, iff_false, reduceCtorEq]
    intro hcon
    exact (handle_line_post_mode_ne cb path mode gf1 l3).1 hcon

/-- `parse_mode` without the glob-star shortcut fails exactly when
`read_u32` fails or the parsed value exceeds `07777`. -/
theorem parse_mode_eq_none_iff (cb : Hook) (s : List Char)
    (h5 : ¬(cb.is_glob ∧ s.head? = some '*')) :
    parse_mode cb s = none ↔
      read_u32 s 8 = none ∨ ∃ m r, read_u32 s 8 = some (m, r) ∧ 0o7777 < m := by
  unfold parse_mode
  rw [if_neg h5]
  cases hr : read_u32 s 8 with
  | none => simp
  | some p =>
    obtain ⟨m, r⟩ := p
    by_cases hb : 0o7777 < m
    · simp [hb]
    · simp [hb]

/-- If `some` comes back from `read_u32`, it is the digit-run value. -/
theorem read_u32_some_eq (s : List Char) (base : Nat) (hb : 2 ≤ base)
    (v : Nat) (r : List Char) (h : read_u32 s base = some (v, r)) :
    v = digitsVal base (s.takeWhile c_isdigit) ∧ r = s.dropWhile c_isdigit := by
  have hspec := read_u32_spec s base hb
  have hnn : ¬read_u32 s base = none := by rw [h]; simp
  rw [hspec.1] at hnn
  push_neg at hnn
  obtain ⟨hne, hlt, hfit⟩ := hnn
  have hs := hspec.2 hne hlt hfit
  rw [h] at hs
  have := Option.some.inj hs
  exact ⟨congrArg Prod.fst this, congrArg Prod.snd this⟩

/-! ## C4: the mode-field error -/

/-- Spec-side reading used by C4: the whole whitespace-delimited mode field
is an octal numeral. -/
def isOctalNumeral (tok : List Char) : Bool :=
  !tok.isEmpty && tok.all (fun c => 48 ≤ c.toNat && c.toNat ≤ 55)

/-- **C4, counterexample.** On the line `dir /a 07x 0 0` the mode field
`07x` is not an octal numeral, yet `handle_line` does not reject the line
with the mode error: `read_u32` stops after `07`, the value 7 passes mode
validation, and the line dies on the following separator check with the
generic entry-description error. -/
theorem handle_line_mode_error_cex :
    handle_line (fun s => some s)
        ['d', 'i', 'r', ' ', '/', 'a', ' ', '0', '7', 'x', ' ', '0', ' ', '0']
      = LineResult.fail_ent ∧
    LineResult.fail_ent ≠ LineResult.fail_mode ∧
    isOctalNumeral ['0', '7', 'x'] = false := by decide

/-- **C4, amended.** For a line that reaches the mode field and is not a
glob line with a `*` mode field, `handle_line` rejects with the mode error
exactly when the leading digit run of the mode field is empty, contains a
digit `≥ 8`, overflows `2^32 - 1`, or denotes a value exceeding `07777`; a
mode field whose leading digit run parses to a value at most `07777` passes
mode validation even when non-space junk follows the run. -/
theorem handle_line_mode_error_amended (canon : List Char → Option (List Char))
    (line l1 path0 l2 path : List Char) (cb : Hook)
    (h1 : find_hook line file_list_hooks = some (cb, l1))
    (h2 : read_str l1 = some (path0, l2))
    (h3 : canon path0 = some path)
    (h4 : ¬(path = [] ∧ cb.allow_root = false))
    (h5 : ¬(cb.is_glob ∧ l2.head? = some '*')) :
    handle_line canon line = .fail_mode ↔
      l2.takeWhile c_isdigit = [] ∨
      (∃ c ∈ l2.takeWhile c_isdigit, 8 ≤ digitVal c) ∨
      0xFFFFFFFF < digitsVal 8 (l2.takeWhile c_isdigit) ∨
      0o7777 < digitsVal 8 (l2.takeWhile c_isdigit) := by
  rw [handle_line_eq_mode_stage canon line l1 path0 l2 path cb h1 h2 h3 h4,
    mode_stage_eq_fail_mode_iff cb path l2, parse_mode_eq_none_iff cb l2 h5]
  have hspec := read_u32_spec l2 8 (by norm_num)
  constructor
  · rintro (hr | ⟨m, r, hr, hbig⟩)
    · rcases hspec.1.mp hr with h | h | h
      exacts [Or.inl h, Or.inr (Or.inl h), Or.inr (Or.inr (Or.inl h))]
    · obtain ⟨hm, -⟩ := read_u32_some_eq l2 8 (by norm_num) m r hr
      exact Or.inr (Or.inr (Or.inr (by omega)))
  · rintro (h | h | h | h)
    · exact Or.inl (hspec.1.mpr (Or.inl h))
    · exact Or.inl (hspec.1.mpr (Or.inr (Or.inl h)))
    · exact Or.inl (hspec.1.mpr (Or.inr (Or.inr h)))
    · cases hr : read_u32 l2 8 with
      | none => exact Or.inl rfl
      | some p =>
        obtain ⟨m, r⟩ := p
        obtain ⟨hm, -⟩ := read_u32_some_eq l2 8 (by norm_num) m r hr
        exact Or.inr ⟨m, r, rfl, by omega⟩

/-- Concrete instantiation of `handle_line_mode_error_amended` on the line
`dir /a 9 0 0` (digit `9` in the octal mode field). -/
theorem handle_line_mode_error_amended_witness :
    handle_line (fun s => some s)
        ['d', 'i', 'r', ' ', '/', 'a', ' ', '9', ' ', '0', ' ', '0']
      = .fail_mode ↔
      (['9', ' ', '0', ' ', '0'].takeWhile c_isdigit = [] ∨
       (∃ c ∈ ['9', ' ', '0', ' ', '0'].takeWhile c_isdigit, 8 ≤ digitVal c) ∨
       0xFFFFFFFF < digitsVal 8 (['9', ' ', '0', ' ', '0'].takeWhile c_isdigit) ∨
       0o7777 < digitsVal 8 (['9', ' ', '0', ' ', '0'].takeWhile c_isdigit)) :=
  handle_line_mode_error_amended (fun s => some s)
    ['d', 'i', 'r', ' ', '/', 'a', ' ', '9', ' ', '0', ' ', '0']
    ['/', 'a', ' ', '9', ' ', '0', ' ', '0'] ['/', 'a']
    ['9', ' ', '0', ' ', '0'] ['/', 'a']
    ⟨['d', 'i', 'r'], S_IFDIR, false, false, true⟩
    (by decide) (by decide) rfl (by decide) (by decide)

/-! ## C9: the root-path check -/

/-- **C9.** Among the pseudo-file keywords only `dir` and `glob` allow the
root path: when the parsed path canonicalizes to the empty string, the line
is rejected with the root error (before any callback could run) exactly for
hooks with `allow_root` unset, which are `slink`, `link`, `nod`, `pipe`,
`sock` and `file`. -/
theorem handle_line_root_rejected (canon : List Char → Option (List Char))
    (line l1 path0 l2 : List Char) (cb : Hook)
    (h1 : find_hook line file_list_hooks = some (cb, l1))
    (h2 : read_str l1 = some (path0, l2))
    (h3 : canon path0 = some []) :
    (∀ h ∈ file_list_hooks,
      h.allow_root = true ↔
        (h.keyword = ['d', 'i', 'r'] ∨ h.keyword = ['g', 'l', 'o', 'b'])) ∧
    (handle_line canon line = .fail_root ↔ cb.allow_root = false) := by
  refine ⟨by decide, ?_⟩
  simp only [handle_line, h1, h2, h3]
  by_cases har : cb.allow_root = false
  · rw [if_pos (by simp [har])]
    simp [har]
  · rw [if_neg (by simp [har])]
    simp only [har, iff_false]
    cases hpm : parse_mode cb l2 with
    | none => simp
    | some p =>
      obtain ⟨mode, gf1, l3⟩ := p
      simpa using (handle_line_post_mode_ne cb [] mode gf1 l3).2

/-- Concrete instantiation of `handle_line_root_rejected`: the line
`slink / 0644 0 0 t` with a canonicalizer that maps `/` to the empty
string is rejected with the root error. -/
theorem handle_line_root_rejected_witness :
    (∀ h ∈ file_list_hooks,
      h.allow_root = true ↔
        (h.keyword = ['d', 'i', 'r'] ∨ h.keyword = ['g', 'l', 'o', 'b'])) ∧
    (handle_line (fun _ => some [])
        ['s', 'l', 'i', 'n', 'k', ' ', '/', ' ', '0', '6', '4', '4', ' ',
         '0', ' ', '0', ' ', 't'] = .fail_root ↔
      (⟨['s', 'l', 'i', 'n', 'k'], S_IFLNK, true, false, false⟩ : Hook).allow_root
        = false) :=
  handle_line_root_rejected (fun _ => some [])
    ['s', 'l', 'i', 'n', 'k', ' ', '/', ' ', '0', '6', '4', '4', ' ',
     '0', ' ', '0', ' ', 't']
    ['/', ' ', '0', '6', '4', '4', ' ', '0', ' ', '0', ' ', 't'] ['/']
    ['0', '6', '4', '4', ' ', '0', ' ', '0', ' ', 't']
    ⟨['s', 'l', 'i', 'n', 'k'], S_IFLNK, true, false, false⟩
    (by decide) (by decide) rfl

/-! ## C7: `*` fields on glob lines -/

/-- **C7.** Only the `glob` keyword is marked `is_glob`; on a glob line a
`*` in the mode, uid or gid field is accepted with value 0 and sets
`DIR_SCAN_KEEP_MODE`, `DIR_SCAN_KEEP_UID`, `DIR_SCAN_KEEP_GID`
respectively (shown field-wise and for a line whose three fields are all
`*`); for a non-glob hook a `*` in the mode field fails with the mode
error and a `*` in the uid or gid field fails with the uid/gid error. -/
theorem handle_line_glob_star (canon : List Char → Option (List Char))
    (line l1 path0 l2 path : List Char) (cb : Hook)
    (h1 : find_hook line file_list_hooks = some (cb, l1))
    (h2 : read_str l1 = some (path0, l2))
    (h3 : canon path0 = some path)
    (h4 : ¬(path = [] ∧ cb.allow_root = false)) :
    (∀ h ∈ file_list_hooks, h.is_glob = true ↔ h.keyword = ['g', 'l', 'o', 'b']) ∧
    (cb.is_glob = true →
      ∀ s : List Char, s.head? = some '*' →
        parse_mode cb s = some (0, DIR_SCAN_KEEP_MODE, s.tail) ∧
        parse_id cb DIR_SCAN_KEEP_UID s = some (0, DIR_SCAN_KEEP_UID, s.tail) ∧
        parse_id cb DIR_SCAN_KEEP_GID s = some (0, DIR_SCAN_KEEP_GID, s.tail)) ∧
    (cb.is_glob = true → cb.need_extra = false →
      l2 = ['*', ' ', '*', ' ', '*'] →
      handle_line canon line =
        .ok cb path cb.mode 0 0
          (DIR_SCAN_KEEP_MODE ||| DIR_SCAN_KEEP_UID ||| DIR_SCAN_KEEP_GID)
          none) ∧
    (cb.is_glob = false → l2.head? = some '*' →
      handle_line canon line = .fail_mode) ∧
    (cb.is_glob = false → ∀ mode gf1 l3 l4,
      parse_mode cb l2 = some (mode, gf1, l3) → skip_space l3 = some l4 →
      l4.head? = some '*' → handle_line canon line = .fail_uid_gid) ∧
    (cb.is_glob = false → ∀ mode gf1 l3 l4 uid gf2 l5 l6,
      parse_mode cb l2 = some (mode, gf1, l3) → skip_space l3 = some l4 →
      parse_id cb DIR_SCAN_KEEP_UID l4 = some (uid, gf2, l5) →
      skip_space l5 = some l6 → l6.head? = some '*' →
      handle_line canon line = .fail_uid_gid) := by
  have hstar_u32 : ∀ (t : List Char) (b : Nat), read_u32 ('*' :: t) b = none := by
    intro t b
    rfl
  have hstar_id : ∀ (kf : Nat) (s : List Char), cb.is_glob = false →
      s.head? = some '*' → parse_id cb kf s = none := by
    intro kf s hg hs
    unfold parse_id
    rw [if_neg (by simp [hg])]
    cases s with
    | nil => simp at hs
    | cons c t =>
      have hc : c = '*' := by simpa using hs
      subst hc
      rw [hstar_u32]
  refine ⟨by decide, ?_, ?_, ?_, ?_, ?_⟩
  · intro hg s hs
    have hp : cb.is_glob = true ∧ s.head? = some '*' := ⟨hg, hs⟩
    refine ⟨?_, ?_, ?_⟩
    · unfold parse_mode
      rw [if_pos hp]
    · unfold parse_id
      rw [if_pos hp]
    · unfold parse_id
      rw [if_pos hp]
  · intro hg hne hl2
    subst hl2
    rw [handle_line_eq_mode_stage canon line l1 path0 _ path cb h1 h2 h3 h4]
    have hm : parse_mode cb ['*', ' ', '*', ' ', '*']
        = some (0, DIR_SCAN_KEEP_MODE, [' ', '*', ' ', '*']) := by
      unfold parse_mode
      rw [if_pos ⟨hg, rfl⟩]
      rfl
    have hu : parse_id cb DIR_SCAN_KEEP_UID ['*', ' ', '*']
        = some (0, DIR_SCAN_KEEP_UID, [' ', '*']) := by
      unfold parse_id
      rw [if_pos ⟨hg, rfl⟩]
      rfl
    have hgid : parse_id cb DIR_SCAN_KEEP_GID ['*']
        = some (0, DIR_SCAN_KEEP_GID, []) := by
      unfold parse_id
      rw [if_pos ⟨hg, rfl⟩]
      rfl
    have hs1 : skip_space [' ', '*', ' ', '*'] = some ['*', ' ', '*'] := by decide
    have hs2 : skip_space [' ', '*'] = some ['*'] := by decide
    have hs3 : skip_space ([] : List Char) = none := by decide
    simp only [hm, handle_line_post_mode, hs1, hu, handle_line_post_uid, hs2,
      hgid, handle_line_post_gid, handle_line_extra, hs3, hne]
    simp
  · intro hg hs
    rw [handle_line_eq_mode_stage canon line l1 path0 l2 path cb h1 h2 h3 h4]
    have hm : parse_mode cb l2 = none := by
      unfold parse_mode
      rw [if_neg (by simp [hg])]
      cases l2 with
      | nil => simp at hs
      | cons c t =>
        have hc : c = '*' := by simpa using hs
        subst hc
        rw [hstar_u32]
    rw [hm]
  · intro hg mode gf1 l3 l4 hpm hss hs
    rw [handle_line_eq_mode_stage canon line l1 path0 l2 path cb h1 h2 h3 h4]
    simp only [hpm, handle_line_post_mode, hss,
      hstar_id DIR_SCAN_KEEP_UID l4 hg hs]
  · intro hg mode gf1 l3 l4 uid gf2 l5 l6 hpm hss hpu hss2 hs
    rw [handle_line_eq_mode_stage canon line l1 path0 l2 path cb h1 h2 h3 h4]
    simp only [hpm, handle_line_post_mode, hss, hpu, handle_line_post_uid,
      hss2, hstar_id DIR_SCAN_KEEP_GID l6 hg hs]

/-! ## C8: quoting of path and pattern fields -/

/-- **C7 witness:** concrete instantiation of `handle_line_glob_star` on the
line `glob /a * * *`. -/
theorem handle_line_glob_star_witness :
    handle_line (fun s => some s)
        ['g', 'l', 'o', 'b', ' ', '/', 'a', ' ', '*', ' ', '*', ' ', '*']
      = .ok ⟨['g', 'l', 'o', 'b'], 0, false, true, true⟩ ['/', 'a'] 0 0 0
          (DIR_SCAN_KEEP_MODE ||| DIR_SCAN_KEEP_UID ||| DIR_SCAN_KEEP_GID)
          none :=
  (handle_line_glob_star (fun s => some s)
    ['g', 'l', 'o', 'b', ' ', '/', 'a', ' ', '*', ' ', '*', ' ', '*']
    ['/', 'a', ' ', '*', ' ', '*', ' ', '*'] ['/', 'a']
    ['*', ' ', '*', ' ', '*'] ['/', 'a']
    ⟨['g', 'l', 'o', 'b'], 0, false, true, true⟩
    (by decide) (by decide) rfl (by decide)).2.2.1 rfl rfl rfl

/-- Escape a character for inclusion in a double-quoted string: exactly the
two sequences `\"` and `\\` of `read_str`. -/
def escQuote (c : Char) : List Char :=
  if c = '"' || c = '\\' then ['\\', c] else [c]

/-- Unfolding of `read_str_quoted` at a closing quote. -/
theorem rsq_close (d : Char) (ds : List Char) :
    read_str_quoted ('"' :: d :: ds)
      = if c_isspace d then some ([], (d :: ds).dropWhile c_isspace) else none := rfl

/-- Unfolding of `read_str_quoted` at a backslash. -/
theorem rsq_esc (d : Char) (ds : List Char) :
    read_str_quoted ('\\' :: d :: ds)
      = if d = '"' || d = '\\' then
          (read_str_quoted ds).map (fun p => (d :: p.1, p.2))
        else (read_str_quoted (d :: ds)).map (fun p => ('\\' :: p.1, p.2)) := rfl

/-- Unfolding of `read_str_quoted` at an ordinary character. -/
theorem rsq_plain (c : Char) (cs : List Char) (h1 : ¬c = '"') (h2 : ¬c = '\\') :
    read_str_quoted (c :: cs)
      = (read_str_quoted cs).map (fun p => (c :: p.1, p.2)) := by
  conv_lhs => unfold read_str_quoted
  rw [if_neg h1, if_neg h2]

/-- `read_str_quoted` decodes an escaped body back to the original text. -/
theorem read_str_quoted_encode (t rest : List Char) :
    read_str_quoted ((t.map escQuote).flatten ++ '"' :: ' ' :: rest)
      = some (t, rest.dropWhile c_isspace) := by
  induction t with
  | nil =>
    show read_str_quoted ('"' :: ' ' :: rest) = _
    rw [rsq_close, if_pos (show c_isspace ' ' = true from rfl)]
    rw [List.dropWhile_cons, if_pos (show c_isspace ' ' = true from rfl)]
  | cons c cs ih =>
    by_cases hc1 : c = '"'
    · subst hc1
      have henc : ((('"' :: cs).map escQuote).flatten ++ '"' :: ' ' :: rest)
          = '\\' :: '"' :: ((cs.map escQuote).flatten ++ '"' :: ' ' :: rest) := by
        simp [escQuote]
      rw [henc, rsq_esc, if_pos (by decide), ih]
      rfl
    · by_cases hc2 : c = '\\'
      · subst hc2
        have henc : ((('\\' :: cs).map escQuote).flatten ++ '"' :: ' ' :: rest)
            = '\\' :: '\\' :: ((cs.map escQuote).flatten ++ '"' :: ' ' :: rest) := by
          simp [escQuote]
        rw [henc, rsq_esc, if_pos (by decide), ih]
        rfl
      · have henc : (((c :: cs).map escQuote).flatten ++ '"' :: ' ' :: rest)
            = c :: ((cs.map escQuote).flatten ++ '"' :: ' ' :: rest) := by
          simp [escQuote, hc1, hc2]
        rw [henc, rsq_plain c _ hc1 hc2, ih]
        rfl

/-- The pattern scanner stops at the first repetition of the quote. -/
theorem takeWhile_ne_append (t rest : List Char) (q : Char) (h : q ∉ t) :
    (t ++ q :: rest).takeWhile (fun d => d != q) = t := by
  induction t with
  | nil => simp [List.takeWhile_cons]
  | cons a t' ih =>
    have ha : (a != q) = true := by
      have : a ≠ q := fun haq => h (haq ▸ List.mem_cons_self a t')
      simpa using this
    rw [List.cons_append, List.takeWhile_cons, if_pos ha,
      ih (fun hm => h (List.mem_cons_of_mem a hm))]

/-- Taking `l.length + 1` elements of `l ++ q :: rest` yields `l ++ [q]`. -/
theorem take_length_succ_append (l : List Char) (q : Char) (rest : List Char) :
    (l ++ q :: rest).take (l.length + 1) = l ++ [q] := by
  induction l with
  | nil => rfl
  | cons a l' ih => simp [List.take_succ_cons, ih]

/-- **C8, counterexample.** A single-quoted path field is not dequoted: on
the field `'a b' x` the token returned by `read_str` is `'a` — the quote is
kept and the token is split at the first space — rather than the literal
`a b` with quotes removed. -/
theorem read_str_single_quote_cex :
    read_str [squote, 'a', ' ', 'b', squote, ' ', 'x']
      = some ([squote, 'a'], ['b', squote, ' ', 'x']) ∧
    [squote, 'a'] ≠ ['a', ' ', 'b'] := by decide

/-- **C8, amended.** A double-quoted path field is taken literally up to the
closing double quote with the quotes removed, `\"` and `\\` being its only
escape sequences (a backslash before any other character stands for
itself); single quotes are not special in path fields; a glob
`-name`/`-path` pattern in single or double quotes is taken literally up to
the first repetition of the quote, with the quotes removed and no escape
processing. -/
theorem read_str_and_pattern_quoting (t rest cs : List Char) (c q : Char)
    (hq : q = '"' ∨ q = squote) (hqt : q ∉ t)
    (hc1 : c ≠ '"') (hc2 : c ≠ '\\') :
    read_str ('"' :: ((t.map escQuote).flatten ++ '"' :: ' ' :: rest))
      = some (t, rest.dropWhile c_isspace) ∧
    read_str_quoted ('\\' :: c :: cs)
      = (read_str_quoted (c :: cs)).map (fun p => ('\\' :: p.1, p.2)) ∧
    name_string_length (q :: t ++ q :: rest) = t.length + 2 ∧
    quote_remove ((q :: t ++ q :: rest).take (t.length + 2)) = t := by
  have hqq : (q = '"' || q = squote) = true := by
    rcases hq with h | h <;> simp [h]
  refine ⟨?_, ?_, ?_, ?_⟩
  · show read_str_quoted ((t.map escQuote).flatten ++ '"' :: ' ' :: rest) = _
    exact read_str_quoted_encode t rest
  · rw [rsq_esc, if_neg (by simp [hc1, hc2])]
  · show name_string_length (q :: (t ++ q :: rest)) = t.length + 2
    conv_lhs => unfold name_string_length
    dsimp only
    rw [if_pos hqq, takeWhile_ne_append t rest q hqt]
    rw [if_pos (by simp only [List.length_append, List.length_cons]; omega)]
  · have htake : (q :: t ++ q :: rest).take (t.length + 2) = q :: (t ++ [q]) := by
      show (q :: (t ++ q :: rest)).take (t.length + 1 + 1) = _
      rw [List.take_succ_cons, take_length_succ_append]
    rw [htake]
    conv_lhs => unfold quote_remove
    dsimp only
    rw [if_pos (show (q = squote || q = '"') = true by
      rcases hq with h | h <;> simp [h])]
    exact takeWhile_ne_append t [] q hqt

/-- Concrete instantiation of `read_str_and_pattern_quoting` with the
content `a"b`, pattern quote `'`, and escape-test character `x`. -/
theorem read_str_and_pattern_quoting_witness :
    read_str ('"' :: ((['a', '"', 'b'].map escQuote).flatten ++ '"' :: ' ' :: ['r']))
      = some (['a', '"', 'b'], ['r'].dropWhile c_isspace) ∧
    read_str_quoted ('\\' :: 'x' :: ['y'])
      = (read_str_quoted ('x' :: ['y'])).map (fun p => ('\\' :: p.1, p.2)) ∧
    name_string_length (squote :: ['a', '"', 'b'] ++ squote :: ['r'])
      = ['a', '"', 'b'].length + 2 ∧
    quote_remove ((squote :: ['a', '"', 'b'] ++ squote :: ['r']).take
        (['a', '"', 'b'].length + 2)) = ['a', '"', 'b'] :=
  read_str_and_pattern_quoting ['a', '"', 'b'] ['r'] ['y'] 'x' squote
    (Or.inr rfl) (by decide) (by decide) (by decide)

/-! ## C1: `fstree_from_file_stream` (lines 519-551)

Every error path of `handle_line` and of the keyword callbacks in
`fstree_from_file.c` prints `filename: line_num: message`; the embedding
records the pair in a `ParseError`.  The tree state and the callbacks
(`fstree_add_generic` etc., libfstree, not under src/) are abstract
parameters. -/

inductive MsgKind where
  | kw
  | ent
  | root
  | no_extra
  | uid_gid
  | mode
  | callback
  deriving DecidableEq, Repr

structure ParseError where
  filename : List Char
  line_num : Nat
  msg : MsgKind
  deriving DecidableEq, Repr

/-- One line of input: `handle_line` followed by the callback dispatch.
`apply` abstracts the `cb->callback` table entries. -/
def process_line {σ : Type} (canon : List Char → Option (List Char))
    (apply : σ → Hook → List Char → Nat → Nat → Nat → Nat →
             Option (List Char) → Option σ)
    (fs : σ) (filename : List Char) (ln : Nat) (line : List Char) :
    Except ParseError σ :=
  match handle_line canon line with
  | .ok cb path m u g gf e =>
    match apply fs cb path m u g gf e with
    | some fs' => .ok fs'
    | none => .error ⟨filename, ln, .callback⟩
  | .fail_kw => .error ⟨filename, ln, .kw⟩
  | .fail_ent => .error ⟨filename, ln, .ent⟩
  | .fail_root => .error ⟨filename, ln, .root⟩
  | .fail_no_extra => .error ⟨filename, ln, .no_extra⟩
  | .fail_uid_gid => .error ⟨filename, ln, .uid_gid⟩
  | .fail_mode => .error ⟨filename, ln, .mode⟩

/-- Modelled from the spec: `istream_get_line` (lib/io, not under src/) with
`ISTREAM_LINE_LTRIM | ISTREAM_LINE_SKIP_EMPTY` yields the stream's
non-empty left-trimmed lines paired with their line numbers, in order; the
loop of `fstree_from_file_stream` skips full-line `#` comments and stops at
the first failing line. -/
def fstree_from_file_stream {σ : Type} (canon : List Char → Option (List Char))
    (apply : σ → Hook → List Char → Nat → Nat → Nat → Nat →
             Option (List Char) → Option σ)
    (fs : σ) (filename : List Char) :
    List (Nat × List Char) → Except ParseError σ
  | [] => .ok fs
  | (ln, line) :: rest =>
    if line.head? = some '#' then
      fstree_from_file_stream canon apply fs filename rest
    else
      match process_line canon apply fs filename ln line with
      | .ok fs' => fstree_from_file_stream canon apply fs' filename rest
      | .error e => .error e

/-- Processing a concatenation runs the prefix first. -/
theorem fstree_from_file_stream_append {σ : Type}
    (canon : List Char → Option (List Char))
    (apply : σ → Hook → List Char → Nat → Nat → Nat → Nat →
             Option (List Char) → Option σ)
    (fs : σ) (filename : List Char) (pre rest : List (Nat × List Char)) :
    fstree_from_file_stream canon apply fs filename (pre ++ rest)
      = match fstree_from_file_stream canon apply fs filename pre with
        | .ok fs' => fstree_from_file_stream canon apply fs' filename rest
        | .error e => .error e := by
  induction pre generalizing fs with
  | nil => rfl
  | cons p pre ih =>
    obtain ⟨ln, line⟩ := p
    by_cases hc : line.head? = some '#'
    · simp only [List.cons_append, fstree_from_file_stream, if_pos hc]
      exact ih fs
    · simp only [List.cons_append, fstree_from_file_stream, if_neg hc]
      cases process_line canon apply fs filename ln line with
      | ok fs1 => exact ih fs1
      | error e => rfl

/-- Every error of `process_line` carries the filename and line number it
was invoked with. -/
theorem process_line_error_loc {σ : Type}
    (canon : List Char → Option (List Char))
    (apply : σ → Hook → List Char → Nat → Nat → Nat → Nat →
             Option (List Char) → Option σ)
    (fs : σ) (filename : List Char) (ln : Nat) (line : List Char)
    (e : ParseError)
    (h : process_line canon apply fs filename ln line = .error e) :
    e.filename = filename ∧ e.line_num = ln := by
  unfold process_line at h
  split at h
  · split at h
    · exact absurd h (by simp)
    · cases h
      exact ⟨rfl, rfl⟩
  all_goals (cases h; exact ⟨rfl, rfl⟩)

/-- **C1.** Lines are processed in order; after the earlier lines have been
applied successfully, the first failing line makes the whole stream
processing return that line's error, whose record carries the input
filename and the failing line's number, and the result does not depend on
any line after the failing one. -/
theorem fstree_from_file_stream_first_error {σ : Type}
    (canon : List Char → Option (List Char))
    (apply : σ → Hook → List Char → Nat → Nat → Nat → Nat →
             Option (List Char) → Option σ)
    (fs fs' : σ) (filename : List Char)
    (pre : List (Nat × List Char)) (ln : Nat) (line : List Char)
    (e : ParseError)
    (hpre : fstree_from_file_stream canon apply fs filename pre = .ok fs')
    (hcmt : ¬line.head? = some '#')
    (herr : process_line canon apply fs' filename ln line = .error e) :
    (∀ post : List (Nat × List Char),
      fstree_from_file_stream canon apply fs filename (pre ++ (ln, line) :: post)
        = .error e) ∧
    e.filename = filename ∧ e.line_num = ln := by
  refine ⟨fun post => ?_, process_line_error_loc canon apply fs' filename ln line e herr⟩
  rw [fstree_from_file_stream_append canon apply fs filename pre ((ln, line) :: post),
    hpre]
  simp only [fstree_from_file_stream, if_neg hcmt, herr]

/-- Concrete instantiation of `fstree_from_file_stream_first_error`: the
valid line `dir /a 0755 0 0` followed by the failing line `bogus x 0 0 0`
(line 3, after a comment) stops processing with the unknown-keyword error
at `input:3`. -/
theorem fstree_from_file_stream_first_error_witness :
    (∀ post : List (Nat × List Char),
      fstree_from_file_stream (fun s => some s)
          (fun _ _ _ _ _ _ _ _ => some ()) () ['i', 'n']
          ([(1, ['d', 'i', 'r', ' ', '/', 'a', ' ', '0', '7', '5', '5', ' ',
                 '0', ' ', '0']),
            (2, ['#', 'c'])] ++
           (3, ['b', 'o', 'g', 'u', 's', ' ', 'x', ' ', '0', ' ', '0', ' ',
                '0']) :: post)
        = .error ⟨['i', 'n'], 3, .kw⟩) ∧
    (⟨['i', 'n'], 3, MsgKind.kw⟩ : ParseError).filename = ['i', 'n'] ∧
    (⟨['i', 'n'], 3, MsgKind.kw⟩ : ParseError).line_num = 3 :=
  fstree_from_file_stream_first_error (fun s => some s)
    (fun _ _ _ _ _ _ _ _ => some ()) () () ['i', 'n']
    [(1, ['d', 'i', 'r', ' ', '/', 'a', ' ', '0', '7', '5', '5', ' ',
          '0', ' ', '0']),
     (2, ['#', 'c'])]
    3 ['b', 'o', 'g', 'u', 's', ' ', 'x', ' ', '0', ' ', '0', ' ', '0']
    ⟨['i', 'n'], 3, .kw⟩ rfl (by decide) rfl

/-! ## C3: owner override (`mkfs.c`, `override_owner_dfs` and `main`)

The in-memory tree: only the attributes relevant to the claim are carried
(`data.children` is meaningful for directories, as in the C union). -/

inductive tree_node where
  | mk (mode uid gid mtime : Nat) (name : List Char) (children : List tree_node)

def tree_node.mode : tree_node → Nat
  | .mk m _ _ _ _ _ => m

def tree_node.uid : tree_node → Nat
  | .mk _ u _ _ _ _ => u

def tree_node.gid : tree_node → Nat
  | .mk _ _ g _ _ _ => g

def tree_node.mtime : tree_node → Nat
  | .mk _ _ _ t _ _ => t

def tree_node.name : tree_node → List Char
  | .mk _ _ _ _ nm _ => nm

def tree_node.children : tree_node → List tree_node
  | .mk _ _ _ _ _ cs => cs

/-- Modelled from the spec: POSIX `S_IFMT`, the file-type mask. -/
def S_IFMT : Nat := 0o170000

/-- POSIX `S_ISDIR`. -/
def S_ISDIR (mode : Nat) : Bool := mode &&& S_IFMT == S_IFDIR

/-- The gensquashfs options relevant to the owner override. -/
structure options_t where
  force_uid : Bool
  force_gid : Bool
  force_uid_value : Nat
  force_gid_value : Nat

/-- `override_owner_dfs` (`mkfs.c` lines 156-168): overwrite uid/gid when
forced and recurse into directory children. -/
def override_owner_dfs (opt : options_t) : tree_node → tree_node
  | .mk mode uid gid mtime name children =>
    .mk mode
      (if opt.force_uid then opt.force_uid_value else uid)
      (if opt.force_gid then opt.force_gid_value else gid)
      mtime name
      (if S_ISDIR mode then
        children.attach.map (fun c => override_owner_dfs opt c.val)
      else children)
termination_by n => sizeOf n
decreasing_by
  simp_wf
  have := List.sizeOf_lt_of_mem c.2
  omega

/-- The guarded call in `main` (lines 226-227), placed before
`fstree_post_process`. -/
def apply_owner_override (opt : options_t) (root : tree_node) : tree_node :=
  if opt.force_uid || opt.force_gid then override_owner_dfs opt root else root

/-- The nodes the DFS reaches: the node itself and, for directories,
everything reachable from the children. -/
def reachable : tree_node → List tree_node
  | .mk mode uid gid mtime name children =>
    .mk mode uid gid mtime name children ::
      (if S_ISDIR mode then
        (children.attach.map (fun c => reachable c.val)).flatten
      else [])
termination_by n => sizeOf n
decreasing_by
  simp_wf
  have := List.sizeOf_lt_of_mem c.2
  omega

/-- Unfolding of `override_owner_dfs` with a plain `List.map`. -/
theorem override_owner_dfs_eq (opt : options_t) (mode uid gid mtime : Nat)
    (name : List Char) (children : List tree_node) :
    override_owner_dfs opt (.mk mode uid gid mtime name children)
      = .mk mode (if opt.force_uid then opt.force_uid_value else uid)
          (if opt.force_gid then opt.force_gid_value else gid) mtime name
          (if S_ISDIR mode then children.map (override_owner_dfs opt)
           else children) := by
  rw [override_owner_dfs]
  rw [List.attach_map_val children (override_owner_dfs opt)]

/-- Unfolding of `reachable` with a plain `List.map`. -/
theorem reachable_eq (mode uid gid mtime : Nat) (name : List Char)
    (children : List tree_node) :
    reachable (.mk mode uid gid mtime name children)
      = .mk mode uid gid mtime name children ::
          (if S_ISDIR mode then (children.map reachable).flatten else []) := by
  rw [reachable]
  rw [List.attach_map_val children reachable]

/-- Structural induction over `tree_node` with a hypothesis for all
children. -/
theorem tree_node.ind_on (P : tree_node → Prop)
    (h : ∀ mode uid gid mtime name children,
      (∀ c ∈ children, P c) → P (.mk mode uid gid mtime name children)) :
    ∀ n, P n
  | .mk mode uid gid mtime name children =>
    h mode uid gid mtime name children
      (fun c _ => tree_node.ind_on P h c)

/-- Projections of the reachable nodes after the override, when the
projections agree node-wise. -/
theorem reachable_override_map {α : Type} (opt : options_t)
    (f g : tree_node → α)
    (hfg : ∀ mode uid gid mtime name children children',
      f (.mk mode (if opt.force_uid then opt.force_uid_value else uid)
          (if opt.force_gid then opt.force_gid_value else gid)
          mtime name children')
        = g (.mk mode uid gid mtime name children)) :
    ∀ n, (reachable (override_owner_dfs opt n)).map f = (reachable n).map g := by
  apply tree_node.ind_on
    (fun n => (reachable (override_owner_dfs opt n)).map f = (reachable n).map g)
  intro mode uid gid mtime name children ih
  rw [override_owner_dfs_eq, reachable_eq, reachable_eq]
  by_cases hd : S_ISDIR mode
  · rw [if_pos hd, if_pos hd, if_pos hd]
    rw [List.map_cons, List.map_cons,
      hfg mode uid gid mtime name children
        (children.map (override_owner_dfs opt))]
    congr 1
    rw [List.map_map, List.map_flatten, List.map_flatten, List.map_map,
      List.map_map]
    congr 1
    apply List.map_congr_left
    intro c hc
    exact ih c hc
  · rw [if_neg hd, if_neg hd]
    rw [List.map_cons, List.map_cons,
      hfg mode uid gid mtime name children children]
    rfl

/-- **C3.** With force-uid (resp. force-gid) configured, the guarded
override pass replaces the uid (resp. gid) of every node the DFS reaches by
the configured value, leaves the other owner field alone when it is not
forced, and changes no other attribute of any node; with neither
configured, the tree is returned unchanged. -/
theorem owner_override_spec (opt : options_t) (n : tree_node) :
    ((reachable (apply_owner_override opt n)).map tree_node.uid
      = (reachable n).map (fun m =>
          if opt.force_uid then opt.force_uid_value else m.uid)) ∧
    ((reachable (apply_owner_override opt n)).map tree_node.gid
      = (reachable n).map (fun m =>
          if opt.force_gid then opt.force_gid_value else m.gid)) ∧
    ((reachable (apply_owner_override opt n)).map
        (fun m => (m.mode, m.mtime, m.name))
      = (reachable n).map (fun m => (m.mode, m.mtime, m.name))) ∧
    (opt.force_uid = false → opt.force_gid = false →
      apply_owner_override opt n = n) := by
  unfold apply_owner_override
  by_cases hg : opt.force_uid || opt.force_gid
  · rw [if_pos hg]
    refine ⟨?_, ?_, ?_, ?_⟩
    · apply reachable_override_map
      intro mode uid gid mtime name children children'
      rfl
    · apply reachable_override_map
      intro mode uid gid mtime name children children'
      rfl
    · apply reachable_override_map
      intro mode uid gid mtime name children children'
      rfl
    · intro hu hgid
      rw [hu, hgid] at hg
      simp at hg
  · rw [if_neg hg]
    simp only [Bool.or_eq_true, not_or, Bool.not_eq_true] at hg
    obtain ⟨hu, hgid⟩ := hg
    refine ⟨?_, ?_, ?_, fun _ _ => rfl⟩
    · rw [hu]
      simp
    · rw [hgid]
      simp
    · rfl

/-! ## C10: `istream_read` (`src/lib/io/src/istream.c` lines 10-39)

The stream state is the unread window of the internal buffer
(`buffer + buffer_offset .. buffer_used`) plus the future deliveries of
`istream_precache`.  Modelled from the spec: `istream_precache` (lib/io
internals, not under src/) refills the whole buffer and reports either a
read error (`none`), a non-empty chunk of the underlying byte stream, or
`buffer_used == 0` at end of stream; a well-behaved stream (`goodStream`)
never errors and delivers non-empty chunks until exhausted. -/

structure istream_state where
  buffered : List Nat
  chunks : List (Option (List Nat))
  deriving DecidableEq, Repr

/-- The `while (size > 0)` loop of `istream_read`: refill on an empty
window (a precache error or end-of-file stops the loop), else copy
`min(available, size)` bytes and continue. -/
def istream_read_loop : List Nat → List (Option (List Nat)) → Nat →
    Option (List Nat × List Nat × List (Option (List Nat)))
  | buf, chunks, 0 => some ([], buf, chunks)
  | [], [], _+1 => some ([], [], [])
  | [], none :: _, _+1 => none
  | [], some [] :: rest, _+1 => some ([], [], rest)
  | [], some (b :: bs) :: rest, size+1 =>
    istream_read_loop (b :: bs) rest (size+1)
  | b :: bs, chunks, size+1 =>
    match istream_read_loop ((b :: bs).drop (size+1)) chunks
        ((size+1) - ((b :: bs).take (size+1)).length) with
    | none => none
    | some (d, buf', chunks') => some ((b :: bs).take (size+1) ++ d, buf', chunks')
termination_by buf chunks _ => (chunks.length, buf.length)
decreasing_by
  · apply Prod.Lex.left
    simp
  · apply Prod.Lex.right
    simp only [List.length_drop, List.length_cons]
    omega

/-- `istream_read`: the request is capped at `0x7FFFFFFF` and the loop is
run; `none` models the `-1` error return. -/
def istream_read (s : istream_state) (size : Nat) :
    Option (List Nat × istream_state) :=
  match istream_read_loop s.buffered s.chunks
      (if 0x7FFFFFFF < size then 0x7FFFFFFF else size) with
  | none => none
  | some (d, buf, chunks) => some (d, ⟨buf, chunks⟩)

/-- A stream whose precache never fails and delivers non-empty chunks. -/
def goodStream (s : istream_state) : Prop :=
  ∀ c ∈ s.chunks, ∃ l, c = some l ∧ l ≠ []

/-- The bytes still ahead of the reader. -/
def availL (buf : List Nat) (chunks : List (Option (List Nat))) : List Nat :=
  buf ++ (chunks.filterMap id).flatten

/-- The bytes still ahead of a stream. -/
def avail (s : istream_state) : List Nat := availL s.buffered s.chunks

/-- The loop never returns more bytes than requested. -/
theorem istream_read_loop_le (buf : List Nat)
    (chunks : List (Option (List Nat))) (size : Nat) :
    ∀ d buf' chunks', istream_read_loop buf chunks size = some (d, buf', chunks') →
      d.length ≤ size := by
  induction buf, chunks, size using istream_read_loop.induct with
  | case1 buf chunks =>
    intro d buf' chunks' h
    rw [istream_read_loop, Option.some.injEq, Prod.mk.injEq] at h
    rw [← h.1]
    simp
  | case2 n =>
    intro d buf' chunks' h
    rw [istream_read_loop, Option.some.injEq, Prod.mk.injEq] at h
    rw [← h.1]
    simp
  | case3 tail n =>
    intro d buf' chunks' h
    rw [istream_read_loop] at h
    exact Option.noConfusion h
  | case4 rest n =>
    intro d buf' chunks' h
    rw [istream_read_loop, Option.some.injEq, Prod.mk.injEq] at h
    rw [← h.1]
    simp
  | case5 b bs rest size ih =>
    intro d buf' chunks' h
    rw [istream_read_loop] at h
    exact ih d buf' chunks' h
  | case6 b bs chunks size hrec ih =>
    intro d buf' chunks' h
    rw [istream_read_loop] at h
    rw [hrec] at h
    exact Option.noConfusion h
  | case7 b bs chunks size d0 buf0 chunks0 hrec ih =>
    intro d buf' chunks' h
    rw [istream_read_loop] at h
    rw [hrec] at h
    simp only [Option.some.injEq, Prod.mk.injEq] at h
    obtain ⟨hd, -, -⟩ := h
    rw [← hd]
    have hd0 := ih d0 buf0 chunks0 hrec
    have htk : ((b :: bs).take (size + 1)).length ≤ size + 1 := by
      simp [List.length_take]
    simp only [List.length_append]
    omega

/-- Splitting a read of `n` bytes at a buffer boundary. -/
theorem take_drop_chunk (L F : List Nat) : ∀ n : Nat,
    L.take n ++ (L.drop n ++ F).take (n - (L.take n).length) = (L ++ F).take n ∧
    (L.drop n ++ F).drop (n - (L.take n).length) = (L ++ F).drop n := by
  induction L with
  | nil =>
    intro n
    simp
  | cons a L ih =>
    intro n
    cases n with
    | zero => simp
    | succ k =>
      simp only [List.take_succ_cons, List.drop_succ_cons, List.cons_append,
        List.length_cons]
      have harith : k + 1 - ((L.take k).length + 1) = k - (L.take k).length := by
        omega
      rw [harith]
      obtain ⟨h1, h2⟩ := ih k
      constructor
      · rw [h1]
      · exact h2

/-- On a good stream the loop reads exactly the next `size` pending bytes
(or everything, when fewer are pending) and leaves the rest. -/
theorem istream_read_loop_good (buf : List Nat)
    (chunks : List (Option (List Nat))) (size : Nat) :
    (∀ c ∈ chunks, ∃ l, c = some l ∧ l ≠ []) →
    ∃ buf' chunks',
      istream_read_loop buf chunks size
        = some ((availL buf chunks).take size, buf', chunks') ∧
      availL buf' chunks' = (availL buf chunks).drop size := by
  induction buf, chunks, size using istream_read_loop.induct with
  | case1 buf chunks =>
    intro hg
    exact ⟨buf, chunks, by simp [istream_read_loop], by simp⟩
  | case2 n =>
    intro hg
    exact ⟨[], [], by simp [istream_read_loop, availL], by simp [availL]⟩
  | case3 tail n =>
    intro hg
    obtain ⟨l, hl, -⟩ := hg none (List.mem_cons_self _ _)
    exact absurd hl (by simp)
  | case4 rest n =>
    intro hg
    obtain ⟨l, hl, hne⟩ := hg (some []) (List.mem_cons_self _ _)
    rw [Option.some.injEq] at hl
    exact absurd hl.symm hne
  | case5 b bs rest size ih =>
    intro hg
    have havail : availL ([] : List Nat) (some (b :: bs) :: rest)
        = availL (b :: bs) rest := by
      simp [availL]
    obtain ⟨buf', chunks', heq, hrest⟩ :=
      ih (fun c hc => hg c (List.mem_cons_of_mem _ hc))
    refine ⟨buf', chunks', ?_, ?_⟩
    · rw [havail]
      rw [istream_read_loop]
      exact heq
    · rw [havail]
      exact hrest
  | case6 b bs chunks size hrec ih =>
    intro hg
    obtain ⟨buf', chunks', heq, -⟩ := ih hg
    rw [hrec] at heq
    exact absurd heq (by simp)
  | case7 b bs chunks size d0 buf0 chunks0 hrec ih =>
    intro hg
    obtain ⟨buf', chunks', heq, hdrop⟩ := ih hg
    rw [hrec, Option.some.injEq, Prod.mk.injEq, Prod.mk.injEq] at heq
    obtain ⟨hd0, hb0, hc0⟩ := heq
    subst hb0
    subst hc0
    obtain ⟨htake, hdrop2⟩ := take_drop_chunk (b :: bs)
      ((chunks.filterMap id).flatten) (size + 1)
    have e1 : availL ((b :: bs).drop (size + 1)) chunks
        = (b :: bs).drop (size + 1) ++ (chunks.filterMap id).flatten := rfl
    have e2 : availL (b :: bs) chunks
        = (b :: bs) ++ (chunks.filterMap id).flatten := rfl
    refine ⟨buf0, chunks0, ?_, ?_⟩
    · simp only [istream_read_loop, hrec]
      rw [hd0, e1, e2, htake]
    · rw [hdrop, e1, e2]
      exact hdrop2

/-- **C10.** `istream_read` either fails (the `-1` return) or returns a
byte count never exceeding `min(size, 2^31 - 1)`; on a stream whose
precache never errors and delivers non-empty chunks until exhaustion, it
returns exactly the next `min(size, 2^31 - 1)` pending bytes of the stream
in order — fewer only when the stream has fewer pending — and leaves
precisely the remaining bytes. -/
theorem istream_read_spec (s : istream_state) (size : Nat) :
    (∀ d s', istream_read s size = some (d, s') →
      d.length ≤ min size 0x7FFFFFFF) ∧
    (goodStream s →
      ∃ s', istream_read s size
          = some ((avail s).take (min size 0x7FFFFFFF), s') ∧
        avail s' = (avail s).drop (min size 0x7FFFFFFF)) := by
  have hcap : (if 0x7FFFFFFF < size then 0x7FFFFFFF else size)
      = min size 0x7FFFFFFF := by
    split <;> omega
  constructor
  · intro d s' h
    unfold istream_read at h
    rw [hcap] at h
    cases hl : istream_read_loop s.buffered s.chunks (min size 0x7FFFFFFF) with
    | none =>
      rw [hl] at h
      exact Option.noConfusion h
    | some p =>
      obtain ⟨d0, b0, c0⟩ := p
      rw [hl] at h
      simp only [Option.some.injEq, Prod.mk.injEq] at h
      obtain ⟨hd, -⟩ := h
      rw [← hd]
      exact istream_read_loop_le s.buffered s.chunks (min size 0x7FFFFFFF)
        d0 b0 c0 hl
  · intro hg
    obtain ⟨buf', chunks', heq, hdrop⟩ :=
      istream_read_loop_good s.buffered s.chunks (min size 0x7FFFFFFF) hg
    refine ⟨⟨buf', chunks'⟩, ?_, hdrop⟩
    unfold istream_read
    rw [hcap, heq]
    rfl

/-- Concrete instantiation of `istream_read_spec`: two buffered bytes and
one pending three-byte chunk, read with a request of five bytes. -/
theorem istream_read_spec_witness :
    goodStream ⟨[1, 2], [some [3, 4, 5]]⟩ ∧
    (∃ s', istream_read ⟨[1, 2], [some [3, 4, 5]]⟩ 4
        = some ((avail ⟨[1, 2], [some [3, 4, 5]]⟩).take (min 4 0x7FFFFFFF), s') ∧
      avail s' = (avail ⟨[1, 2], [some [3, 4, 5]]⟩).drop (min 4 0x7FFFFFFF)) :=
  have hg : goodStream ⟨[1, 2], [some [3, 4, 5]]⟩ := by
    intro c hc
    simp only [List.mem_singleton] at hc
    exact ⟨[3, 4, 5], by rw [hc], by decide⟩
  ⟨hg, (istream_read_spec ⟨[1, 2], [some [3, 4, 5]]⟩ 4).2 hg⟩

/-! ## C6: glob filter options (`glob_files`, lines 20-36 and 184-270) -/

/-- The `glob_scan_flags` table: option name, `clear_flag`, `set_flag`. -/
def glob_scan_flags : List (List Char × Nat × Nat) :=
  [(['-', 't', 'y', 'p', 'e', ' ', 'b'], DIR_SCAN_NO_BLK, 0),
   (['-', 't', 'y', 'p', 'e', ' ', 'c'], DIR_SCAN_NO_CHR, 0),
   (['-', 't', 'y', 'p', 'e', ' ', 'd'], DIR_SCAN_NO_DIR, 0),
   (['-', 't', 'y', 'p', 'e', ' ', 'p'], DIR_SCAN_NO_FIFO, 0),
   (['-', 't', 'y', 'p', 'e', ' ', 'f'], DIR_SCAN_NO_FILE, 0),
   (['-', 't', 'y', 'p', 'e', ' ', 'l'], DIR_SCAN_NO_SLINK, 0),
   (['-', 't', 'y', 'p', 'e', ' ', 's'], DIR_SCAN_NO_SOCK, 0),
   (['-', 'x', 'd', 'e', 'v'], 0, DIR_SCAN_ONE_FILESYSTEM),
   (['-', 'm', 'o', 'u', 'n', 't'], 0, DIR_SCAN_ONE_FILESYSTEM),
   (['-', 'k', 'e', 'e', 'p', 't', 'i', 'm', 'e'], 0, DIR_SCAN_KEEP_TIME),
   (['-', 'n', 'o', 'n', 'r', 'e', 'c', 'u', 'r', 's', 'i', 'v', 'e'], 0,
    DIR_SCAN_NO_RECURSION)]

/-- `all_flags` of `glob_files`: the seven kind-exclusion flags. -/
def all_flags : Nat :=
  DIR_SCAN_NO_BLK ||| DIR_SCAN_NO_CHR ||| DIR_SCAN_NO_DIR |||
  DIR_SCAN_NO_FIFO ||| DIR_SCAN_NO_FILE ||| DIR_SCAN_NO_SLINK |||
  DIR_SCAN_NO_SOCK

/-- The inner `for` loop over `glob_scan_flags`: first entry whose name is a
prefix followed by whitespace wins. -/
def find_glob_flag (s : List Char) :
    List (List Char × Nat × Nat) → Option (Nat × Nat × List Char)
  | [] => none
  | (nm, cf, sf) :: tbl =>
    match matchOpt nm s with
    | some rest => some (cf, sf, rest)
    | none => find_glob_flag s tbl

/-- The mutable state of the option-processing loop of `glob_files`. -/
structure GlobState where
  scan_flags : Nat
  glob_flags : Nat
  first_clear : Bool
  name_pattern : Option (List Char)
  deriving DecidableEq, Repr

/-- A successful `matchOpt` consumes at least one character. -/
theorem matchOpt_length (nm : List Char) : ∀ s r, matchOpt nm s = some r →
    r.length < s.length := by
  induction nm with
  | nil =>
    intro s r h
    cases s with
    | nil => exact Option.noConfusion h
    | cons c cs =>
      simp only [matchOpt] at h
      by_cases hc : c_isspace c
      · rw [if_pos hc, Option.some.injEq] at h
        rw [← h, List.dropWhile_cons, if_pos hc]
        have := (List.dropWhile_sublist c_isspace (l := cs)).length_le
        simp only [List.length_cons]
        omega
      · rw [if_neg hc] at h
        exact Option.noConfusion h
  | cons n nm ih =>
    intro s r h
    cases s with
    | nil => exact Option.noConfusion h
    | cons c cs =>
      simp only [matchOpt] at h
      by_cases hc : c = n
      · rw [if_pos hc] at h
        have := ih cs r h
        simp only [List.length_cons]
        omega
      · rw [if_neg hc] at h
        exact Option.noConfusion h

/-- A successful table match consumes at least one character. -/
theorem find_glob_flag_length (s : List Char) :
    ∀ tbl cf sf r, find_glob_flag s tbl = some (cf, sf, r) →
      r.length < s.length := by
  intro tbl
  induction tbl with
  | nil =>
    intro cf sf r h
    exact Option.noConfusion h
  | cons e tbl ih =>
    intro cf sf r h
    obtain ⟨nm, cf0, sf0⟩ := e
    simp only [find_glob_flag] at h
    cases hm : matchOpt nm s with
    | some rest =>
      rw [hm] at h
      simp only [Option.some.injEq, Prod.mk.injEq] at h
      obtain ⟨-, -, hr⟩ := h
      rw [← hr]
      exact matchOpt_length nm s rest hm
    | none =>
      rw [hm] at h
      exact ih cf sf r h

/-- The option-processing `while` loop of `glob_files` (lines 191-270):
table options update the flags (the first clearing option first sets all
seven kind-exclusion bits), `-name`/`-path` store a pattern, `--` stops
option processing, any other `-`-prefixed word is an error (`none`), and a
non-option word stops the loop. -/
def glob_opts_loop (st : GlobState) : List Char → Option (GlobState × List Char)
  | [] => some (st, [])
  | e :: es =>
    match hf : find_glob_flag (e :: es) glob_scan_flags with
    | some (cf, sf, rest) =>
      let st1 := if cf ≠ 0 ∧ st.first_clear then
          { st with scan_flags := st.scan_flags ||| all_flags,
                    first_clear := false }
        else st
      glob_opts_loop
        { st1 with scan_flags := (st1.scan_flags &&& (0xFFFFFFFF ^^^ cf)) ||| sf }
        rest
    | none =>
      match hn : matchOpt ['-', 'n', 'a', 'm', 'e'] (e :: es) with
      | some rest =>
        glob_opts_loop
          { st with
              name_pattern :=
                some (quote_remove (rest.take (name_string_length rest))) }
          ((rest.drop (name_string_length rest)).dropWhile c_isspace)
      | none =>
        match hp : matchOpt ['-', 'p', 'a', 't', 'h'] (e :: es) with
        | some rest =>
          glob_opts_loop
            { st with
                name_pattern :=
                  some (quote_remove (rest.take (name_string_length rest))),
                glob_flags := st.glob_flags ||| DIR_SCAN_MATCH_FULL_PATH }
            ((rest.drop (name_string_length rest)).dropWhile c_isspace)
        | none =>
          if e = '-' then
            match es with
            | d :: rest2 =>
              if d = '-' then
                match rest2 with
                | x :: _ =>
                  if c_isspace x then some (st, rest2.dropWhile c_isspace)
                  else none
                | [] => none
              else none
            | [] => none
          else some (st, e :: es)
termination_by s => s.length
decreasing_by
  · exact find_glob_flag_length (c :: cs) glob_scan_flags cf sf rest hf
  · have h1 := matchOpt_length ['-', 'n', 'a', 'm', 'e'] (c :: cs) rest hn
    have h2 : (List.dropWhile c_isspace
          (rest.drop (name_string_length rest))).length
        ≤ (rest.drop (name_string_length rest)).length :=
      (List.dropWhile_sublist c_isspace).length_le
    have h3 : (rest.drop (name_string_length rest)).length ≤ rest.length := by
      rw [List.length_drop]
      omega
    omega
  · have h1 := matchOpt_length ['-', 'p', 'a', 't', 'h'] (c :: cs) rest hp
    have h2 : (List.dropWhile c_isspace
          (rest.drop (name_string_length rest))).length
        ≤ (rest.drop (name_string_length rest)).length :=
      (List.dropWhile_sublist c_isspace).length_le
    have h3 : (rest.drop (name_string_length rest)).length ≤ rest.length := by
      rw [List.length_drop]
      omega
    omega

/-- Options as table entries (the subtype makes the table membership
available when reasoning about a rendered option list). -/
def GlobOpt := { e : List Char × Nat × Nat // e ∈ glob_scan_flags }

def render (opts : List GlobOpt) : List Char :=
  (opts.map (fun o => o.val.1 ++ [' '])).flatten

def glob_step (st : GlobState) (o : GlobOpt) : GlobState :=
  let cf := o.val.2.1
  let sf := o.val.2.2
  let st1 := if cf ≠ 0 ∧ st.first_clear then
      { st with scan_flags := st.scan_flags ||| all_flags,
                first_clear := false }
    else st
  { st1 with scan_flags := (st1.scan_flags &&& (0xFFFFFFFF ^^^ cf)) ||| sf }

def isTypeOpt (o : GlobOpt) : Bool := o.val.2.1 != 0

theorem dropWhile_no_lead (rest : List Char)
    (h : ∀ c, rest.head? = some c → c_isspace c = false) :
    rest.dropWhile c_isspace = rest := by
  cases rest with
  | nil => rfl
  | cons r rs => rw [List.dropWhile_cons, if_neg (by simp [h r rfl])]

theorem find_glob_flag_step (o : GlobOpt) (rest : List Char)
    (h : ∀ c, rest.head? = some c → c_isspace c = false) :
    find_glob_flag (o.val.1 ++ ' ' :: rest) glob_scan_flags
      = some (o.val.2.1, o.val.2.2, rest) := by
  have hdw := dropWhile_no_lead rest h
  obtain ⟨e, he⟩ := o
  fin_cases he <;> simp +decide [find_glob_flag, matchOpt, hdw]

theorem glob_step_first_clear (st : GlobState) (o : GlobOpt) :
    (glob_step st o).first_clear = (st.first_clear && !(isTypeOpt o)) := by
  obtain ⟨e, he⟩ := o
  unfold glob_step isTypeOpt
  by_cases hfc : st.first_clear <;> fin_cases he <;> simp +decide [hfc]

theorem glob_step_testBit (st : GlobState) (o : GlobOpt) (k : Fin 7) :
    (glob_step st o).scan_flags.testBit k.val
      = if isTypeOpt o then
          (if (o.val.2.1).testBit k.val then false
           else (st.first_clear || st.scan_flags.testBit k.val))
        else st.scan_flags.testBit k.val := by
  have hmask : ∀ j, Nat.testBit 0xFFFFFFFF j = decide (j < 32) := by
    intro j
    rw [show (0xFFFFFFFF : Nat) = 2 ^ 32 - 1 by norm_num]
    exact Nat.testBit_two_pow_sub_one 32 j
  have h128 : ∀ j, Nat.testBit 128 j = decide (7 = j) := by
    intro j
    rw [show (128 : Nat) = 2 ^ 7 by norm_num]
    exact Nat.testBit_two_pow
  have h256 : ∀ j, Nat.testBit 256 j = decide (8 = j) := by
    intro j
    rw [show (256 : Nat) = 2 ^ 8 by norm_num]
    exact Nat.testBit_two_pow
  have h512 : ∀ j, Nat.testBit 512 j = decide (9 = j) := by
    intro j
    rw [show (512 : Nat) = 2 ^ 9 by norm_num]
    exact Nat.testBit_two_pow
  obtain ⟨e, he⟩ := o
  unfold glob_step isTypeOpt
  fin_cases he <;> fin_cases k <;> by_cases hfc : st.first_clear <;>
    simp +decide [hfc, all_flags, hmask, h128, h256, h512, DIR_SCAN_NO_BLK,
      DIR_SCAN_NO_CHR, DIR_SCAN_NO_DIR, DIR_SCAN_NO_FIFO, DIR_SCAN_NO_FILE,
      DIR_SCAN_NO_SLINK, DIR_SCAN_NO_SOCK, DIR_SCAN_ONE_FILESYSTEM,
      DIR_SCAN_KEEP_TIME, DIR_SCAN_NO_RECURSION]

theorem mention_isType (o : GlobOpt) (j : Nat)
    (h : (o.val.2.1).testBit j = true) : isTypeOpt o = true := by
  obtain ⟨e, he⟩ := o
  revert h
  fin_cases he <;> intro h <;> first
    | rfl
    | (rw [show ((0 : Nat), DIR_SCAN_ONE_FILESYSTEM).1.testBit j
          = Nat.testBit 0 j from rfl] at h
       simp at h)

theorem glob_opts_loop_step (st : GlobState) (o : GlobOpt) (rest : List Char)
    (h : ∀ c, rest.head? = some c → c_isspace c = false) :
    glob_opts_loop st (o.val.1 ++ ' ' :: rest)
      = glob_opts_loop (glob_step st o) rest := by
  have hf := find_glob_flag_step o rest h
  obtain ⟨e, he⟩ := o
  fin_cases he <;>
  · simp only [List.cons_append, List.nil_append] at hf ⊢
    rw [glob_opts_loop]
    split
    · rename_i cf sf rest1 heq
      rw [hf] at heq
      simp only [Option.some.injEq, Prod.mk.injEq] at heq
      obtain ⟨h1, h2, h3⟩ := heq
      subst h1
      subst h2
      subst h3
      rfl
    · rename_i heq
      rw [hf] at heq
      exact Option.noConfusion heq

theorem render_cons (o : GlobOpt) (opts : List GlobOpt) :
    render (o :: opts) = o.val.1 ++ ' ' :: render opts := by
  simp [render]

theorem render_no_lead (opts : List GlobOpt) :
    ∀ c, (render opts).head? = some c → c_isspace c = false := by
  cases opts with
  | nil =>
    intro c h
    simp [render] at h
  | cons o opts =>
    intro c h
    rw [render_cons] at h
    obtain ⟨e, he⟩ := o
    revert h
    fin_cases he <;>
    · intro h
      simp only [List.cons_append, List.head?_cons, Option.some.injEq] at h
      rw [← h]
      decide

theorem glob_opts_loop_render (opts : List GlobOpt) :
    ∀ st : GlobState, glob_opts_loop st (render opts)
      = some (opts.foldl glob_step st, []) := by
  induction opts with
  | nil =>
    intro st
    rw [show render [] = [] from rfl, glob_opts_loop]
    rfl
  | cons o opts ih =>
    intro st
    rw [render_cons, glob_opts_loop_step st o (render opts) (render_no_lead opts),
      List.foldl_cons]
    exact ih (glob_step st o)

theorem glob_fold_first_clear (opts : List GlobOpt) :
    ∀ st, (opts.foldl glob_step st).first_clear
      = (st.first_clear && !(opts.any isTypeOpt)) := by
  induction opts with
  | nil =>
    intro st
    simp
  | cons o opts ih =>
    intro st
    rw [List.foldl_cons, ih, glob_step_first_clear, List.any_cons]
    cases st.first_clear <;> cases hT : isTypeOpt o <;> simp

theorem glob_fold_testBit (opts : List GlobOpt) :
    ∀ (st : GlobState) (k : Fin 7),
      (opts.foldl glob_step st).scan_flags.testBit k.val
        = if opts.any isTypeOpt then
            (if opts.any (fun o => (o.val.2.1).testBit k.val) then false
             else (st.first_clear || st.scan_flags.testBit k.val))
          else st.scan_flags.testBit k.val := by
  induction opts with
  | nil =>
    intro st k
    simp
  | cons o opts ih =>
    intro st k
    rw [List.foldl_cons, ih, List.any_cons, List.any_cons,
      glob_step_first_clear, glob_step_testBit]
    have hMA : opts.any (fun o => (o.val.2.1).testBit k.val) = true →
        opts.any isTypeOpt = true := by
      intro hM
      rw [List.any_eq_true] at hM ⊢
      obtain ⟨x, hx, hm⟩ := hM
      exact ⟨x, hx, mention_isType x k.val hm⟩
    by_cases hT : isTypeOpt o
    · by_cases hm : (o.val.2.1).testBit k.val
      · simp only [hT, hm, if_true, Bool.true_or, if_pos]
        by_cases hM : opts.any (fun o => (o.val.2.1).testBit k.val)
        · simp [hM, hMA hM]
        · by_cases hA : opts.any isTypeOpt <;> simp [hM, hA]
      · simp only [hT, hm, if_true, if_false, Bool.true_or]
        by_cases hM : opts.any (fun o => (o.val.2.1).testBit k.val)
        · simp [hM, hMA hM]
        · by_cases hA : opts.any isTypeOpt <;> simp [hM, hA]
    · have hm : (o.val.2.1).testBit k.val = false := by
        by_cases hmm : (o.val.2.1).testBit k.val
        · exact absurd (mention_isType o k.val hmm) (by simp [hT])
        · simpa using hmm
      simp only [hT, hm, if_false, Bool.false_or]
      by_cases hM : opts.any (fun o => (o.val.2.1).testBit k.val)
      · simp [hM, hMA hM, hT]
      · by_cases hA : opts.any isTypeOpt <;> simp [hM, hA, hT]

/-- **C6.** Whatever sequence of `glob_scan_flags` options a glob filter
specification contains (rendered as the option names separated by spaces),
the loop accepts it and, for each of the seven kind bits: the bit is set in
`scan_flags` exactly when some `-type` option appears in the sequence and
no `-type` option of that kind appears — i.e. the first `-type` option
implicitly sets all seven exclusion flags before clearing its own, each
later `-type` clears one more, and without any `-type` option no
kind-exclusion flag is ever set. -/
theorem glob_type_whitelist (opts : List GlobOpt) (gf0 : Nat) :
    ∃ st : GlobState,
      glob_opts_loop ⟨0, gf0, true, none⟩ (render opts) = some (st, []) ∧
      ∀ k : Fin 7, st.scan_flags.testBit k.val
        = (opts.any isTypeOpt &&
           !(opts.any (fun o => (o.val.2.1).testBit k.val))) := by
  refine ⟨opts.foldl glob_step ⟨0, gf0, true, none⟩,
    glob_opts_loop_render opts _, ?_⟩
  intro k
  rw [glob_fold_testBit]
  by_cases hA : opts.any isTypeOpt <;>
    by_cases hM : opts.any (fun o => (o.val.2.1).testBit k.val) <;>
      simp [hA, hM]


end SquashFs
